import Mathlib

/-!
Verification development for the `craw_data` zero-configuration web crawler.

The definitions below are a shallow embedding of the Python source under
`src/core/`: `smart_extractor.py` (price normalisation, extraction driver),
`smart_detector.py` (container clustering and scoring, pagination),
`dual_mode_engine.py` (mode selection, fetch escalation, next-page
derivation), `queue_manager.py` (FIFO queue with visited-set dedup),
`robots_checker.py` (per-origin robots gate), and `scale_handler.py`
(the crawl loops).  Parts that the handler consumes but that are absent
from the source queue (`get_depth`, `to_dict`/`from_dict`, the `parent`
argument of `add`) are modelled from the specification and marked as such.

Python truthiness of optional strings (`if html:`) is modelled by
`optTruthy`; Python dictionaries keyed by strings are association lists;
machine floats produced by `float(...)` are modelled as rationals.
-/

namespace CrawData

/-- Python truthiness of an optional string: `None` and `""` are falsy. -/
def optTruthy : Option String → Bool
  | none => false
  | some s => s ≠ ""

/-- An extracted item: an open-keyed record, modelled as an association list
(`dict` in the source). -/
def Item := List (String × String)

instance : DecidableEq Item := by
  unfold Item
  infer_instance

/-! ## Price normalisation (`SmartExtractor._normalize_price`) -/

/-- Digits accumulated most-significant first, as Python `int` of a digit
string. -/
def digitsToNat (l : List Char) : Nat :=
  l.foldl (fun n c => 10 * n + (c.toNat - 48)) 0

/-- Model of Python `float(s)` restricted to the strings that can reach it in
`_normalize_price`: digits and at most one dot.  `float` raises `ValueError`
(here: `none`) on an empty string, on a string with several dots, or on a
bare `"."`.  The value `intPart.fracPart` is reported as the pair
(mantissa, number of fractional digits), so the float is
mantissa / 10 ^ scale. -/
def parseFloatParts (l : List Char) : Option (Nat × Nat) :=
  if l.any (fun c => ¬ (c.isDigit ∨ c = '.')) then none
  else if 1 < l.count '.' then none
  else if ¬ l.any Char.isDigit then none
  else
    let intPart := l.takeWhile (· ≠ '.')
    let fracPart := (l.dropWhile (· ≠ '.')).drop 1
    some (digitsToNat intPart * 10 ^ fracPart.length + digitsToNat fracPart,
      fracPart.length)

/-- The rational value of a parsed float. -/
def partsToRat (p : Nat × Nat) : Rat :=
  (p.1 : Rat) / (10 : Rat) ^ p.2

/-- True when, among the separator characters `,` and `.`, the one occurring
last in `l` is the comma — i.e. Python's `rindex(',') > rindex('.')`. -/
def lastSepIsComma (l : List Char) : Bool :=
  match l.reverse.find? (fun c => c = ',' ∨ c = '.') with
  | some c => c = ','
  | none => false

/-- `SmartExtractor._normalize_price`: strip every character that is not a
digit, a dot or a comma, then resolve the decimal separator:
US `1,234.56` vs EU `1.234,56` when both appear; for a lone comma, several
commas mean thousands separators, a single comma with a two-digit tail is a
decimal comma, anything else is a thousands separator.  This stage stays in
digit-land: it yields the (mantissa, scale) pair of the parsed float. -/
def normalizePriceParts (price : String) : Option (Nat × Nat) :=
  if price = "" then none
  else
    let numberPart := price.toList.filter (fun c => c.isDigit ∨ c = '.' ∨ c = ',')
    let hasComma := numberPart.contains ','
    let hasDot := numberPart.contains '.'
    let resolved :=
      if hasComma ∧ hasDot then
        if lastSepIsComma numberPart then
          -- EU format: drop the dots, the comma becomes the decimal dot
          (numberPart.filter (· ≠ '.')).map (fun c => if c = ',' then '.' else c)
        else
          -- US format: drop the commas
          numberPart.filter (· ≠ ',')
      else if hasComma then
        if 1 < numberPart.count ',' then
          numberPart.filter (· ≠ ',')
        else
          -- single comma: a two-digit tail marks a decimal comma
          if (numberPart.reverse.takeWhile (· ≠ ',')).length = 2 then
            numberPart.map (fun c => if c = ',' then '.' else c)
          else
            numberPart.filter (· ≠ ',')
      else numberPart
    parseFloatParts resolved

/-- `SmartExtractor._normalize_price`: the normalised price as a rational
number (`float` in the source), or `none` when unparsable. -/
def normalizePrice (price : String) : Option Rat :=
  (normalizePriceParts price).map partsToRat

/-! ## Pagination hints and next-page derivation
(`SmartDetector._detect_pagination` result shape,
`DualModeEngine._detect_next_page`) -/

/-- The pagination dictionaries produced by `SmartDetector._detect_pagination`:
`{"type": "button", "next_url": …, "selector": …}`,
`{"type": "links", "pattern": …, "current": …, "pages": …}`, or
`{"type": "load_more", "selector": …, "trigger": "click"}`. -/
inductive Pagination where
  | button (nextUrl : Option String) (selector : String)
  | links (pattern : String) (current : Nat) (pages : List Nat)
  | loadMore (selector : String)
deriving DecidableEq

/-- Does `pat` occur as a contiguous run inside `l`? -/
def containsRun (l pat : List Char) : Bool :=
  match l with
  | [] => pat.isEmpty
  | _ :: tl => pat.isPrefixOf l || containsRun tl pat

/-- Substring containment, Python's `"{page}" in pattern`. -/
def strContains (s pat : String) : Bool :=
  containsRun s.toList pat.toList

/-- Left-to-right non-overlapping replacement of every occurrence of `pat`
(non-empty in every use) by `rep`, i.e. Python's `str.replace`.  The first
argument is fuel, instantiated with the length of the list plus one; every
step consumes at least one character, so the fuel never runs out. -/
def replaceRunAux : Nat → List Char → List Char → List Char → List Char
  | 0, l, _, _ => l
  | _ + 1, [], _, _ => []
  | n + 1, c :: tl, pat, rep =>
    if pat ≠ [] ∧ pat.isPrefixOf (c :: tl) then
      rep ++ replaceRunAux n ((c :: tl).drop pat.length) pat rep
    else c :: replaceRunAux n tl pat rep

/-- Python's `s.replace(pat, rep)` for a non-empty `pat`. -/
def strReplace (s pat rep : String) : String :=
  ⟨replaceRunAux (s.toList.length + 1) s.toList pat.toList rep.toList⟩

/-- `DualModeEngine._detect_next_page`, dispatch on the cached pagination
hint: a `button` hint yields its `next_url`; a `links` hint with a non-empty
pattern containing `{page}` substitutes `current + 1`; a `load_more` hint
(and a missing hint) yields no next URL. -/
def detectNextPage (pagination : Option Pagination) : Option String :=
  match pagination with
  | none => none
  | some (.button nextUrl _) => nextUrl
  | some (.links pattern current _) =>
      if pattern ≠ "" ∧ strContains pattern "{page}" then
        some (strReplace pattern "{page}" (toString (current + 1)))
      else none
  | some (.loadMore _) => none

/-! ## Smart detector: container clustering, scoring, selection
(`SmartDetector._detect_data_containers`, `_score_container`,
`_generate_selector`; `SmartExtractor._extract_with_patterns`) -/

/-- The sample item `_extract_item_data` builds from a bucket's
representative element: each canonical field is stored only when its
extracted value is truthy. -/
structure SampleData where
  title : Option String
  link : Option String
  image : Option String
  price : Option String
  description : Option String
deriving DecidableEq

/-- The slice of a DOM element that `_detect_data_containers` consumes:
its tag name, its classes, its parent's tag and classes (for the fallback
selector), whether it is a leaf (no child tags), and the sample item
extracted from it.  The document traversal and `_extract_item_data` DOM
walk are the abstraction boundary: buckets of such elements are the input. -/
structure DomElem where
  name : String
  classes : List String
  parentName : Option String
  parentClasses : List String
  isLeaf : Bool
  sample : SampleData
deriving DecidableEq

/-- `SmartDetector.min_repeats`. -/
def minRepeats : Nat := 3

/-- `SmartDetector.inline_tags` (the source set omits `img`). -/
def inlineTags : List String :=
  ["a", "span", "b", "strong", "em", "i", "small", "label",
   "mark", "code", "time", "button", "input", "select",
   "option", "textarea", "svg", "path", "br", "hr"]

/-- Is there a run of `k` consecutive characters satisfying `p` in `l`? -/
def existsRun (p : Char → Bool) (k : Nat) : List Char → Bool
  | [] => decide (k = 0)
  | c :: tl => ((c :: tl).take k).all p && decide (k ≤ (c :: tl).length)
      || existsRun p k tl

/-- A lowercase hex character, the class `[a-f0-9]`. -/
def isHexLower (c : Char) : Bool :=
  c.isDigit || ('a' ≤ c && c ≤ 'f')

/-- A class name the selector generator treats as unstable:
`re.search(r'\d{4,}|[a-f0-9]{8}', c)`. -/
def unstableClass (c : String) : Bool :=
  existsRun Char.isDigit 4 c.toList || existsRun isHexLower 8 c.toList

/-- The `parentTag.parentFirstClass > tag` fallback of
`_generate_selector`, used when the element has no stable classes. -/
def fallbackSelector (el : DomElem) : String :=
  match el.parentName with
  | some pn =>
      match el.parentClasses with
      | pc :: _ => pn ++ "." ++ pc ++ " > " ++ el.name
      | [] => el.name
  | none => el.name

/-- `SmartDetector._generate_selector`: `tag.stable1.stable2` capped at two
classes, else the parent fallback, else the bare tag. -/
def generateSelector (el : DomElem) : String :=
  let stable := el.classes.filter (fun c => ¬ unstableClass c)
  if el.classes ≠ [] ∧ stable ≠ [] then
    el.name ++ "." ++ String.intercalate "." (stable.take 2)
  else
    fallbackSelector el

/-- `SmartDetector._score_container`. -/
def scoreContainer (sample : SampleData) (count : Nat) : Nat :=
  10 * min count 20
    + (if optTruthy sample.title then 100 else 0)
    + (if optTruthy sample.link then 50 else 0)
    + (if optTruthy sample.price then 30 else 0)
    + (if optTruthy sample.image then 20 else 0)
    + (if optTruthy sample.description then 10 else 0)

/-- A scored container candidate, the dictionaries collected in
`valid_clusters`. -/
structure ContainerCandidate where
  selector : String
  count : Nat
  sample : SampleData
  score : Nat
  signature : String
deriving DecidableEq

/-- The body of the `_detect_data_containers` loop for one signature
bucket: drop buckets below `min_repeats`, drop inline-tag and leaf
representatives, otherwise build the scored candidate. -/
def bucketCandidate : String × List DomElem → Option ContainerCandidate
  | (sig, elems) =>
    if elems.length < minRepeats then none
    else
      match elems with
      | [] => none
      | sample :: _ =>
        if inlineTags.contains sample.name then none
        else if sample.isLeaf then none
        else some
          { selector := generateSelector sample
            count := elems.length
            sample := sample.sample
            score := scoreContainer sample.sample elems.length
            signature := sig }

/-- Stable insertion for the descending sort by score
(`valid_clusters.sort(key=score, reverse=True)`). -/
def insertByScore (c : ContainerCandidate) :
    List ContainerCandidate → List ContainerCandidate
  | [] => [c]
  | d :: ds =>
      if d.score ≤ c.score then c :: d :: ds else d :: insertByScore c ds

/-- Stable sort by score, highest first. -/
def sortByScoreDesc : List ContainerCandidate → List ContainerCandidate
  | [] => []
  | c :: cs => insertByScore c (sortByScoreDesc cs)

/-- `SmartDetector._detect_data_containers` over the signature buckets
produced by `_cluster_by_structure` (in document/insertion order). -/
def detectDataContainers (clusters : List (String × List DomElem)) :
    List ContainerCandidate :=
  sortByScoreDesc (clusters.filterMap bucketCandidate)

/-- `SmartExtractor._extract_with_patterns`: no candidate means no items;
otherwise every element matched by the top candidate's selector is turned
into an item.  Per-element DOM extraction and validity filtering are
abstracted into the `selectExtract` argument (selector to extracted
items). -/
def extractWithPatterns (selectExtract : String → List Item)
    (containers : List ContainerCandidate) : List Item :=
  match containers with
  | [] => []
  | best :: _ => selectExtract best.selector

/-! ## String helpers

Kernel-evaluable models of the Python `str` operations the embedded code
uses (`strip`, `lower`, `split`, `join`, `startswith`). -/

/-- Python `s.strip()`. -/
def strTrim (s : String) : String :=
  ⟨((s.toList.dropWhile Char.isWhitespace).reverse.dropWhile
      Char.isWhitespace).reverse⟩

/-- Python `s.lower()` for the ASCII range the crawler meets. -/
def strLower (s : String) : String :=
  ⟨s.toList.map Char.toLower⟩

/-- Splitting worker: cuts at every non-overlapping occurrence of `sep`
(non-empty in every use), left to right.  The fuel is the length of the
list plus one; every step consumes at least one character. -/
def splitRunAux : Nat → List Char → List Char → List Char → List (List Char)
  | 0, l, _, acc => [acc.reverse ++ l]
  | _ + 1, [], _, acc => [acc.reverse]
  | n + 1, c :: tl, sep, acc =>
    if sep ≠ [] ∧ sep.isPrefixOf (c :: tl) then
      acc.reverse :: splitRunAux n ((c :: tl).drop sep.length) sep []
    else splitRunAux n tl sep (c :: acc)

/-- Python `s.split(sep)` for a non-empty separator. -/
def strSplitOn (s sep : String) : List String :=
  (splitRunAux (s.toList.length + 1) s.toList sep.toList []).map
    fun l => ⟨l⟩

/-- Python `sep.join(parts)`. -/
def strJoin (sep : String) (parts : List String) : String :=
  ⟨List.intercalate sep.toList (parts.map String.toList)⟩

/-- Python `s.startswith(pre)`. -/
def strStarts (s pre : String) : Bool :=
  pre.toList.isPrefixOf s.toList

/-! ## URL helpers (`urllib.parse.urlparse` for the shapes the crawler
meets: `scheme://netloc/path?query`).  Percent-quoting is the identity
here. -/

/-- The scheme of a URL, `""` when there is no `://`. -/
def urlScheme (url : String) : String :=
  match strSplitOn url "://" with
  | [_] => ""
  | s :: _ => s
  | [] => ""

/-- The network location of a URL, `""` when there is no `://`. -/
def urlNetloc (url : String) : String :=
  match strSplitOn url "://" with
  | [_] => ""
  | _ :: rest => ⟨(strJoin "://" rest).toList.takeWhile (· ≠ '/')⟩
  | [] => ""

/-- Everything from the first `/` after the network location on (path,
query and fragment — what `can_fetch` rebuilds with `urlunparse`); for a
scheme-less URL, `urlparse` puts the whole string in `path`. -/
def urlPath (url : String) : String :=
  match strSplitOn url "://" with
  | [x] => x
  | _ :: rest => ⟨(strJoin "://" rest).toList.dropWhile (· ≠ '/')⟩
  | [] => ""

/-- `urlparse(url).netloc or urlparse(url).path`: the per-domain key used
by `_get_domain` in the engine, the extractor and the scale handler. -/
def getDomain (url : String) : String :=
  let n := urlNetloc url
  if n ≠ "" then n else urlPath url

/-! ## Robots gate (`robots_checker.py` over `urllib.robotparser`) -/

/-- One user-agent block of a parsed robots.txt: the agent names it
applies to and its rule lines `(path, allowance)` in file order. -/
structure RobotsEntry where
  useragents : List String
  rulelines : List (String × Bool)
deriving DecidableEq

/-- Model of `urllib.robotparser.RobotFileParser`.  `lastChecked` reduces
the `last_checked` timestamp to whether `parse` was ever run: a fresh
parser has `last_checked = 0` and `can_fetch` then refuses everything. -/
structure RobotFileParser where
  lastChecked : Bool
  disallowAll : Bool
  allowAll : Bool
  entries : List RobotsEntry
  defaultEntry : Option RobotsEntry
deriving DecidableEq

/-- A parser as `RobotFileParser()` constructs it (before any `parse`). -/
def emptyParser : RobotFileParser :=
  { lastChecked := false, disallowAll := false, allowAll := false,
    entries := [], defaultEntry := none }

/-- An entry with no agents and no rules. -/
def emptyEntry : RobotsEntry := ⟨[], []⟩

/-- `RuleLine.__init__`: an empty disallow means allow everything. -/
def mkRuleLine (path : String) (allowance : Bool) : String × Bool :=
  if path = "" ∧ allowance = false then (path, true) else (path, allowance)

/-- `RobotFileParser._add_entry`: a `*` entry becomes the default entry
(first one wins); others are appended in order. -/
def addEntry (p : RobotFileParser) (e : RobotsEntry) : RobotFileParser :=
  if e.useragents.contains "*" then
    match p.defaultEntry with
    | none => { p with defaultEntry := some e }
    | some _ => p
  else { p with entries := p.entries ++ [e] }

/-- One line of `RobotFileParser.parse`'s state machine: state 0 = start,
1 = inside a user-agent header run, 2 = rule lines seen. -/
def parseRobotsLine : Nat × RobotsEntry × RobotFileParser → String →
    Nat × RobotsEntry × RobotFileParser
  | (st, cur, p), line =>
    let blank :=
      if line = "" then
        if st = 1 then (0, emptyEntry, p)
        else if st = 2 then (0, emptyEntry, addEntry p cur)
        else (st, cur, p)
      else (st, cur, p)
    match blank with
    | (st, cur, p) =>
      let content := strTrim ((strSplitOn line "#").headD line)
      if content = "" then (st, cur, p)
      else
        match strSplitOn content ":" with
        | [] => (st, cur, p)
        | [_] => (st, cur, p)
        | k :: rest =>
          let key := strLower (strTrim k)
          let val := strTrim (strJoin ":" rest)
          if key = "user-agent" then
            match (if st = 2 then (emptyEntry, addEntry p cur) else (cur, p)) with
            | (cur, p) =>
              (1, { cur with useragents := cur.useragents ++ [val] }, p)
          else if key = "disallow" then
            if st ≠ 0 then
              (2, { cur with rulelines := cur.rulelines ++ [mkRuleLine val false] }, p)
            else (st, cur, p)
          else if key = "allow" then
            if st ≠ 0 then
              (2, { cur with rulelines := cur.rulelines ++ [mkRuleLine val true] }, p)
            else (st, cur, p)
          else (st, cur, p)

/-- `RobotFileParser.parse`: marks the file as read (`modified()`), folds
the line state machine, flushes a trailing entry. -/
def RobotFileParser.parse (p : RobotFileParser) (lines : List String) :
    RobotFileParser :=
  match lines.foldl parseRobotsLine (0, emptyEntry, { p with lastChecked := true }) with
  | (st, cur, p) => if st = 2 then addEntry p cur else p

/-- `Entry.applies_to`: the checked agent is cut at the first `/` and
lowercased; `*` matches everything, otherwise substring containment. -/
def entryApplies (ua : String) (e : RobotsEntry) : Bool :=
  let key := strLower ((strSplitOn ua "/").headD ua)
  e.useragents.any fun agent => agent = "*" || strContains key (strLower agent)

/-- `RuleLine.applies_to`: `*` or prefix match on the path. -/
def ruleApplies (path : String) (rl : String × Bool) : Bool :=
  rl.1 = "*" || strStarts path rl.1

/-- `Entry.allowance`: the first applicable rule line decides; no
applicable line means allowed. -/
def entryAllowance (e : RobotsEntry) (path : String) : Bool :=
  match e.rulelines.find? (ruleApplies path) with
  | some rl => rl.2
  | none => true

/-- `RobotFileParser.can_fetch`: an un-read parser refuses everything;
otherwise the first matching entry (or the default entry) decides. -/
def RobotFileParser.canFetch (p : RobotFileParser) (ua url : String) : Bool :=
  if p.disallowAll then false
  else if p.allowAll then true
  else if ¬ p.lastChecked then false
  else
    let path0 := urlPath url
    let path := if path0 = "" then "/" else path0
    match p.entries.find? (entryApplies ua) with
    | some e => entryAllowance e path
    | none =>
      match p.defaultEntry with
      | some e => entryAllowance e path
      | none => true

/-- The permissive default the checker parses on a fetch error:
`parser.parse(["User-agent: *", "Allow: /"])`. -/
def defaultAllowParser : RobotFileParser :=
  emptyParser.parse ["User-agent: *", "Allow: /"]

/-- The outcome of the robots.txt GET: a status with body lines, or a
raised exception (timeout, connection failure). -/
inductive RobotsFetch where
  | ok (status : Nat) (text : List String)
  | failed
deriving DecidableEq

/-- `RobotsChecker.__init__` state: the follow flag and the per-origin
parser cache keyed by the robots URL. -/
structure RobotsChecker where
  follow : Bool
  cache : List (String × RobotFileParser)
deriving DecidableEq

/-- `RobotsChecker.robots_url`: `f"{scheme}://{netloc}/robots.txt"`. -/
def robotsUrl (url : String) : String :=
  urlScheme url ++ "://" ++ urlNetloc url ++ "/robots.txt"

/-- `RobotsChecker.load` on the `follow = true` path (the only path
`allowed` reaches it from): cache hit returns the cached parser; otherwise
a 200 body is parsed, a non-200 response leaves the fresh parser untouched,
and a raised fetch error parses the permissive default.  The network GET is
the `fetch` argument. -/
def loadParser (rc : RobotsChecker) (fetch : String → RobotsFetch)
    (url : String) : RobotFileParser × RobotsChecker :=
  let ru := robotsUrl url
  match rc.cache.lookup ru with
  | some p => (p, rc)
  | none =>
    let parser :=
      match fetch ru with
      | .ok status text =>
          if status = 200 then emptyParser.parse text else emptyParser
      | .failed => defaultAllowParser
    (parser, { rc with cache := (ru, parser) :: rc.cache })

/-- `RobotsChecker.allowed`: always true when following is disabled, else
the loaded parser's `can_fetch` verdict, together with the updated cache. -/
def RobotsChecker.allowed (rc : RobotsChecker) (fetch : String → RobotsFetch)
    (url : String) (ua : String := "*") : Bool × RobotsChecker :=
  if ¬ rc.follow then (true, rc)
  else
    match loadParser rc fetch url with
    | (p, rc') => (p.canFetch ua url, rc')

/-! ## Crawl queue (`queue_manager.py`) -/

/-- State of `CrawlQueue`: the FIFO deque and the queue's own visited set
(everything ever enqueued), as a list in insertion order. -/
structure CrawlQueue where
  queue : List String
  visited : List String
deriving DecidableEq

/-- A queue as `CrawlQueue()` constructs it. -/
def CrawlQueue.empty : CrawlQueue := ⟨[], []⟩

/-- Method `add` of `CrawlQueue`: falsy (empty) URLs are ignored; a URL not
in the queue's visited set is appended at the back and recorded there;
anything else is a no-op, so `add` is idempotent per URL. -/
def CrawlQueue.add (q : CrawlQueue) (url : String) : CrawlQueue :=
  if url = "" then q
  else if q.visited.contains url then q
  else { queue := q.queue ++ [url], visited := url :: q.visited }

/-- Method `has_next` of `CrawlQueue`. -/
def CrawlQueue.hasNext (q : CrawlQueue) : Bool :=
  0 < q.queue.length

/-- Serialized queue blob.  Modelled from the spec: the source queue has no
serializer, the handler's checkpoint consumes `queue.to_dict()`; the spec
(§4.3, §6 resume blob layout) prescribes `{queue: [url], visited: [url]}`. -/
structure QueueDict where
  queue : List String
  visited : List String
deriving DecidableEq

/-- Modelled from the spec: `CrawlQueue.to_dict`, absent from
`queue_manager.py`; serializes pending URLs in FIFO order and the visited
set. -/
def CrawlQueue.toDict (q : CrawlQueue) : QueueDict :=
  ⟨q.queue, q.visited⟩

/-- Modelled from the spec: `CrawlQueue.from_dict`, absent from
`queue_manager.py`; restores pending URLs and the visited set. -/
def CrawlQueue.fromDict (d : QueueDict) : CrawlQueue :=
  ⟨d.queue, d.visited⟩

/-- Depth lookup.  Modelled from the spec: `queue.get_depth(url)` is
consumed by the handler but not defined in the source queue; the spec
(§3, §9 open questions) prescribes tracking depth at add time with
start URLs at depth 0 and depth(child) = depth(parent) + 1. -/
def depthOf (depths : List (String × Nat)) (url : String) : Nat :=
  (depths.lookup url).getD 0

/-- Queue `add` together with the spec-modelled depth bookkeeping: the
depth is recorded exactly when the URL is really enqueued. -/
def addWithDepth (q : CrawlQueue) (depths : List (String × Nat))
    (url : String) (depth : Nat) : CrawlQueue × List (String × Nat) :=
  if url = "" then (q, depths)
  else if q.visited.contains url then (q, depths)
  else ({ queue := q.queue ++ [url], visited := url :: q.visited },
    (url, depth) :: depths)

/-! ## Dual-mode engine (`dual_mode_engine.py`) -/

/-- Variants of `CrawlMode`. -/
inductive CrawlMode where
  | html
  | browser
  | auto
deriving DecidableEq

/-- The engine's `stats` counters. -/
structure EngineStats where
  htmlSuccess : Nat
  htmlFailed : Nat
  browserSuccess : Nat
  browserFailed : Nat
  autoSwitches : Nat
deriving DecidableEq

/-- Mutable engine state: `domain_modes` (ModeMemory, newest assignment
first) and `stats`. -/
structure EngineState where
  domainModes : List (String × CrawlMode)
  stats : EngineStats
deriving DecidableEq

/-- An engine as `DualModeEngine.__init__` builds it. -/
def EngineState.fresh : EngineState := ⟨[], ⟨0, 0, 0, 0, 0⟩⟩

/-- Method `_fetch_with_mode`: one fetch in a fixed mode with the stats
bookkeeping.  The two crawlers' `fetch` / `fetch_html` are the `htmlFetch`
and `browserFetch` arguments (URL to optional body); a missing
`browserFetch` is the engine without a browser crawler. -/
def fetchWithMode (es : EngineState) (htmlFetch : String → Option String)
    (browserFetch : Option (String → Option String)) (url : String)
    (mode : CrawlMode) : Option String × CrawlMode × EngineState :=
  match mode with
  | .html =>
    let html := htmlFetch url
    let stats :=
      if optTruthy html then
        { es.stats with htmlSuccess := es.stats.htmlSuccess + 1 }
      else { es.stats with htmlFailed := es.stats.htmlFailed + 1 }
    (html, .html, { es with stats := stats })
  | .browser =>
    match browserFetch with
    | none => (none, .browser, es)
    | some bf =>
      let html := bf url
      let stats :=
        if optTruthy html then
          { es.stats with browserSuccess := es.stats.browserSuccess + 1 }
        else { es.stats with browserFailed := es.stats.browserFailed + 1 }
      (html, .browser, { es with stats := stats })
  | .auto => (none, .auto, es)

/-- Method `fetch` of `DualModeEngine`: AUTO resolves through ModeMemory
(default HTML); a falsy body from an HTML-mode attempt escalates to the
browser when one exists, and a truthy browser body records BROWSER for the
host and bumps `auto_switches`. -/
def engineFetch (es : EngineState) (htmlFetch : String → Option String)
    (browserFetch : Option (String → Option String)) (url : String)
    (mode : CrawlMode) : Option String × CrawlMode × EngineState :=
  let domain := getDomain url
  let mode :=
    if mode = .auto then (es.domainModes.lookup domain).getD .html else mode
  match fetchWithMode es htmlFetch browserFetch url mode with
  | (html, actual, es1) =>
    if ¬ optTruthy html ∧ mode = .html ∧ browserFetch.isSome then
      match fetchWithMode es1 htmlFetch browserFetch url .browser with
      | (html2, actual2, es2) =>
        if optTruthy html2 then
          (html2, actual2,
            { domainModes := (domain, .browser) :: es2.domainModes,
              stats :=
                { es2.stats with autoSwitches := es2.stats.autoSwitches + 1 } })
        else (html2, actual2, es2)
    else (html, actual, es1)

/-- Method `fetch_and_extract`: fetch, then extract and detect the next
page from the body; a falsy body short-circuits to `([], None, mode)`;
zero items from an HTML-mode body re-fetch with the browser once, and only
a non-empty browser extraction records BROWSER and replaces the result.
The extractor run (`extract_auto`) and next-page detection over a body are
the `extract` and `detectNext` arguments (the pattern cache lives behind
them). -/
def fetchAndExtract (es : EngineState) (htmlFetch : String → Option String)
    (browserFetch : Option (String → Option String))
    (extract : String → String → List Item)
    (detectNext : String → String → Option String)
    (url : String) (mode : CrawlMode) :
    (List Item × Option String × CrawlMode) × EngineState :=
  match engineFetch es htmlFetch browserFetch url mode with
  | (html, actualMode, es1) =>
    if ¬ optTruthy html then (([], none, actualMode), es1)
    else
      let body := html.getD ""
      let items := extract body url
      let nextUrl := detectNext body url
      if items.isEmpty ∧ actualMode = .html ∧ browserFetch.isSome then
        match fetchWithMode es1 htmlFetch browserFetch url .browser with
        | (htmlB, _, es2) =>
          if optTruthy htmlB then
            let bodyB := htmlB.getD ""
            let itemsB := extract bodyB url
            if ¬ itemsB.isEmpty then
              ((itemsB, detectNext bodyB url, .browser),
                { domainModes := (getDomain url, .browser) :: es2.domainModes,
                  stats :=
                    { es2.stats with
                      autoSwitches := es2.stats.autoSwitches + 1 } })
            else ((itemsB, nextUrl, actualMode), es2)
          else ((items, nextUrl, actualMode), es2)
      else ((items, nextUrl, actualMode), es1)

/-! ## Scale handler (`scale_handler.py`)

The crawl loops are embedded as step functions iterated on explicit fuel.
Wall-clock pieces (session id, start time, rate-limit sleeps, checkpoint
timestamps) and the log lines are outside the model: `_apply_rate_limit`
only sleeps and stamps `domain_delays`, `_update_progress` and
`_checkpoint` only log and hand snapshots to sinks.  The engine is passed
as a state-threading oracle that may raise (the per-URL `try` boundary
catches `Except.error`); the robots gate is a pure predicate (its verdict
for a fixed session and fetch oracle); the result callback may raise. -/

/-- Counters of `CrawlSession` (identifier and timestamps omitted). -/
structure CrawlSession where
  pagesCrawled : Nat
  pagesTotal : Nat
  itemsExtracted : Nat
  errors : Nat
  domains : List String
deriving DecidableEq

/-- The handler state a crawl run threads: the queue, the spec-modelled
depth map, the handler's own visited set, the session counters, the engine
state, and — as ghost instrumentation for the theorems — the trace of URLs
handed to `fetch_and_extract`, each flagged with whether its processing
raised. -/
structure HandlerState (σ : Type) where
  queue : CrawlQueue
  depths : List (String × Nat)
  visited : List String
  session : CrawlSession
  engineState : σ
  trace : List (String × Bool)

/-- The injected collaborators and limits of a crawl call: the engine
oracle (`fetch_and_extract`), the robots verdict, the per-item result
callback, the requested mode, and the `max_depth` / `max_domains`
limits. -/
structure CrawlCtx (σ : Type) where
  engine : σ → String → CrawlMode →
    Except Unit (List Item × Option String × CrawlMode) × σ
  robots : String → Bool
  callbk : Item → Except Unit Unit
  mode : CrawlMode
  maxDepth : Nat
  maxDomains : Nat

/-- The `for item in items: await result_callback(item)` loop; an exception
aborts the remaining callbacks. -/
def runCallbacks (cb : Item → Except Unit Unit) : List Item → Except Unit Unit
  | [] => .ok ()
  | i :: rest =>
    match cb i with
    | .error e => .error e
    | .ok _ => runCallbacks cb rest

/-- The `try` block of the single-domain loop body, after `url` was popped
and passed every guard: on an engine exception, `errors += 1` and nothing
else changes; on success, mark visited, count the page, count and deliver
the items (a callback exception keeps the state reached so far and adds
`errors += 1`), then enqueue a truthy unvisited next URL with
depth(parent) + 1. -/
def processUrl {σ : Type} (ctx : CrawlCtx σ) (s : HandlerState σ)
    (url : String) : HandlerState σ :=
  match ctx.engine s.engineState url ctx.mode with
  | (.error _, es) =>
    { s with engineState := es,
             session := { s.session with errors := s.session.errors + 1 },
             trace := s.trace ++ [(url, true)] }
  | (.ok (items, nextUrl, _), es) =>
    let s1 : HandlerState σ :=
      { s with engineState := es,
               visited := if s.visited.contains url then s.visited
                          else url :: s.visited,
               session :=
                 { s.session with
                   pagesCrawled := s.session.pagesCrawled + 1 } }
    let afterItems : HandlerState σ ⊕ HandlerState σ :=
      if items.isEmpty then .inl s1
      else
        let s2 : HandlerState σ :=
          { s1 with session :=
              { s1.session with
                itemsExtracted := s1.session.itemsExtracted + items.length } }
        match runCallbacks ctx.callbk items with
        | .error _ => .inr s2
        | .ok _ => .inl s2
    match afterItems with
    | .inr s2 =>
      { s2 with session := { s2.session with errors := s2.session.errors + 1 },
                trace := s2.trace ++ [(url, true)] }
    | .inl s2 =>
      let s3 : HandlerState σ :=
        if optTruthy nextUrl ∧ ¬ s2.visited.contains (nextUrl.getD "") then
          match addWithDepth s2.queue s2.depths (nextUrl.getD "")
              (depthOf s2.depths url + 1) with
          | (q, d) => { s2 with queue := q, depths := d }
        else s2
      { s3 with trace := s3.trace ++ [(url, false)] }

/-- One iteration of the single-domain `while` loop of `crawl`: `none`
means the loop exits (queue empty, page limit, domain limit); `some`
continues, either skipping the popped URL (already visited, too deep,
robots-blocked) or processing it. -/
def crawlStep {σ : Type} (ctx : CrawlCtx σ) (s : HandlerState σ) :
    Option (HandlerState σ) :=
  if ¬ s.queue.hasNext then none
  else if s.session.pagesTotal ≤ s.session.pagesCrawled then none
  else if ctx.maxDomains < s.session.domains.length then none
  else
    match s.queue.queue with
    | [] => none
    | url :: rest =>
      let s := { s with queue := { s.queue with queue := rest } }
      if s.visited.contains url then some s
      else if ctx.maxDepth < depthOf s.depths url then some s
      else if ¬ ctx.robots url then some s
      else some (processUrl ctx s url)

/-- The fueled single-domain crawl loop. -/
def crawlLoop {σ : Type} (ctx : CrawlCtx σ) : Nat → HandlerState σ →
    HandlerState σ
  | 0, s => s
  | fuel + 1, s =>
    match crawlStep ctx s with
    | none => s
    | some s' => crawlLoop ctx fuel s'

/-- One start URL of the setup loop of `crawl`: enqueue it at depth 0 and
record its domain in the session's domain set. -/
def initStep {σ : Type} (s : HandlerState σ) (url : String) :
    HandlerState σ :=
  match addWithDepth s.queue s.depths url 0 with
  | (q, d) =>
    let dom := getDomain url
    { s with queue := q, depths := d,
             session :=
               { s.session with
                 domains := if s.session.domains.contains dom then
                     s.session.domains
                   else s.session.domains ++ [dom] } }

/-- Session setup of `crawl`: fresh counters with
`pages_total = max_pages or self.max_pages` (already resolved by the
caller here), then every start URL added through `initStep`. -/
def crawlInit {σ : Type} (startUrls : List String) (pagesTotal : Nat)
    (es : σ) : HandlerState σ :=
  startUrls.foldl initStep
    { queue := CrawlQueue.empty, depths := [], visited := [],
      session := { pagesCrawled := 0, pagesTotal := pagesTotal,
                   itemsExtracted := 0, errors := 0, domains := [] },
      engineState := es, trace := [] }

/-- `ScaleHandler.crawl`: init, loop, and the final state the summary is
computed from. -/
def crawl {σ : Type} (ctx : CrawlCtx σ) (startUrls : List String)
    (pagesTotal : Nat) (es : σ) (fuel : Nat) : HandlerState σ :=
  crawlLoop ctx fuel (crawlInit startUrls pagesTotal es)

/-- The `try` block of the multi-domain loop body: like the single-domain
one, but bumps the per-domain count and only enqueues a next URL whose
domain is below the per-domain cap. -/
def processMultiUrl {σ : Type} (ctx : CrawlCtx σ) (mpd : Nat)
    (s : HandlerState σ) (counts : List (String × Nat)) (url dom : String) :
    HandlerState σ × List (String × Nat) :=
  match ctx.engine s.engineState url ctx.mode with
  | (.error _, es) =>
    ({ s with engineState := es,
              session := { s.session with errors := s.session.errors + 1 },
              trace := s.trace ++ [(url, true)] }, counts)
  | (.ok (items, nextUrl, _), es) =>
    let s1 : HandlerState σ :=
      { s with engineState := es,
               visited := if s.visited.contains url then s.visited
                          else url :: s.visited,
               session :=
                 { s.session with
                   pagesCrawled := s.session.pagesCrawled + 1 } }
    let counts := (dom, (counts.lookup dom).getD 0 + 1) :: counts
    let afterItems : HandlerState σ ⊕ HandlerState σ :=
      if items.isEmpty then .inl s1
      else
        let s2 : HandlerState σ :=
          { s1 with session :=
              { s1.session with
                itemsExtracted := s1.session.itemsExtracted + items.length } }
        match runCallbacks ctx.callbk items with
        | .error _ => .inr s2
        | .ok _ => .inl s2
    match afterItems with
    | .inr s2 =>
      ({ s2 with
         session := { s2.session with errors := s2.session.errors + 1 },
         trace := s2.trace ++ [(url, true)] }, counts)
    | .inl s2 =>
      let s3 : HandlerState σ :=
        if optTruthy nextUrl ∧ ¬ s2.visited.contains (nextUrl.getD "") then
          if (counts.lookup (getDomain (nextUrl.getD ""))).getD 0 < mpd then
            match addWithDepth s2.queue s2.depths (nextUrl.getD "")
                (depthOf s2.depths url + 1) with
            | (q, d) => { s2 with queue := q, depths := d }
          else s2
        else s2
      ({ s3 with trace := s3.trace ++ [(url, false)] }, counts)

/-- One iteration of the `crawl_multi_domain` loop: no page-total, depth or
domain-count guards here — only visited, the per-domain cap and robots. -/
def crawlMultiStep {σ : Type} (ctx : CrawlCtx σ) (mpd : Nat)
    (s : HandlerState σ) (counts : List (String × Nat)) :
    Option (HandlerState σ × List (String × Nat)) :=
  if ¬ s.queue.hasNext then none
  else
    match s.queue.queue with
    | [] => none
    | url :: rest =>
      let s := { s with queue := { s.queue with queue := rest } }
      if s.visited.contains url then some (s, counts)
      else
        let dom := getDomain url
        if mpd ≤ (counts.lookup dom).getD 0 then some (s, counts)
        else if ¬ ctx.robots url then some (s, counts)
        else some (processMultiUrl ctx mpd s counts url dom)

/-- The fueled multi-domain crawl loop. -/
def crawlMultiLoop {σ : Type} (ctx : CrawlCtx σ) (mpd : Nat) :
    Nat → HandlerState σ × List (String × Nat) →
    HandlerState σ × List (String × Nat)
  | 0, sc => sc
  | fuel + 1, sc =>
    match crawlMultiStep ctx mpd sc.1 sc.2 with
    | none => sc
    | some sc' => crawlMultiLoop ctx mpd fuel sc'

/-- One start URL of the setup loop of `crawl_multi_domain`: enqueue it,
record its domain, zero the domain's page count. -/
def multiInitStep {σ : Type} (sc : HandlerState σ × List (String × Nat))
    (url : String) : HandlerState σ × List (String × Nat) :=
  match sc with
  | (s, counts) => (initStep s url, (getDomain url, 0) :: counts)

/-- Session setup of `crawl_multi_domain` (continued): the initial state
pair, with `pages_total = len(start_urls) * max_pages_per_domain`. -/
def crawlMultiInit {σ : Type} (startUrls : List String) (mpd : Nat)
    (es : σ) : HandlerState σ × List (String × Nat) :=
  startUrls.foldl multiInitStep
    ({ queue := CrawlQueue.empty, depths := [], visited := [],
       session := { pagesCrawled := 0, pagesTotal := startUrls.length * mpd,
                    itemsExtracted := 0, errors := 0, domains := [] },
       engineState := es, trace := [] }, [])

/-- `ScaleHandler.crawl_multi_domain`. -/
def crawlMultiDomain {σ : Type} (ctx : CrawlCtx σ) (startUrls : List String)
    (mpd : Nat) (es : σ) (fuel : Nat) :
    HandlerState σ × List (String × Nat) :=
  crawlMultiLoop ctx mpd fuel (crawlMultiInit startUrls mpd es)

/-- The dual-mode engine as the handler's engine oracle: by construction
`fetch_and_extract` returns a triple and never raises. -/
def engineOracle (htmlFetch : String → Option String)
    (browserFetch : Option (String → Option String))
    (extract : String → String → List Item)
    (detectNext : String → String → Option String) :
    EngineState → String → CrawlMode →
    Except Unit (List Item × Option String × CrawlMode) × EngineState :=
  fun es url mode =>
    match fetchAndExtract es htmlFetch browserFetch extract detectNext
        url mode with
    | (res, es') => (.ok res, es')

/-- Errors recorded in the ghost trace. -/
def errCount (t : List (String × Bool)) : Nat :=
  (t.filter (fun p => p.2)).length

/-- The invariant behind single-fetch-per-URL: every URL handed to the
engine or still pending appears exactly once across trace and queue, and
all of them are in the queue's visited set. -/
def fetchInv {σ : Type} (s : HandlerState σ) : Prop :=
  (s.trace.map Prod.fst ++ s.queue.queue).Nodup ∧
  ∀ u ∈ s.trace.map Prod.fst ++ s.queue.queue, u ∈ s.queue.visited

/-- A crawl context whose engine is the dual-mode engine over an HTML
fetcher that always fails, with no browser crawler: every
`fetch_and_extract` call yields the final-null triple. -/
def nullFetchCtx : CrawlCtx EngineState :=
  { engine := engineOracle (fun _ => none) none (fun _ _ => [])
      (fun _ _ => none),
    robots := fun _ => true, callbk := fun _ => .ok (), mode := .auto,
    maxDepth := 10, maxDomains := 100 }

/-- A crawl context whose engine raises on every URL. -/
def raiseCtx : CrawlCtx Unit :=
  { engine := fun u _ _ => (.error (), u), robots := fun _ => true,
    callbk := fun _ => .ok (), mode := .auto,
    maxDepth := 10, maxDomains := 100 }

/-- A crawl context whose engine succeeds with no items and hands out a
single cross-domain next URL from the seed `http://a/`. -/
def hopCtx : CrawlCtx Unit :=
  { engine := fun u url _ =>
      (.ok ([], if url = "http://a/" then some "http://b/" else none,
        .html), u),
    robots := fun _ => true, callbk := fun _ => .ok (), mode := .auto,
    maxDepth := 10, maxDomains := 100 }

/-- A concrete sample item used to exercise the detector. -/
def demoSample : SampleData := ⟨some "Product", some "/p/1", none, none, none⟩

/-- A concrete container element used to exercise the detector. -/
def demoElem : DomElem := ⟨"div", ["card"], some "div", ["list"], false, demoSample⟩

/-- One signature bucket of three repeated `demoElem`s. -/
def demoClusters : List (String × List DomElem) :=
  [("div.card|h3:1-a:1", [demoElem, demoElem, demoElem])]

/-- The candidate the detector builds from `demoClusters`:
score 10·3 + 100 (title) + 50 (link) = 180. -/
def demoCand : ContainerCandidate :=
  ⟨"div.card", 3, demoSample, 180, "div.card|h3:1-a:1"⟩

/-! ## Theorems -/

/-- `insertByScore` only rearranges: the result is a permutation. -/
theorem insertByScore_perm (c : ContainerCandidate)
    (l : List ContainerCandidate) : List.Perm (insertByScore c l) (c :: l) := by
  induction l with
  | nil => simp [insertByScore]
  | cons d ds ih =>
    simp only [insertByScore]
    split
    · exact List.Perm.refl _
    · exact (List.Perm.cons d ih).trans (List.Perm.swap c d ds)

/-- `insertByScore` preserves the descending-by-score order. -/
theorem insertByScore_sorted (c : ContainerCandidate)
    {l : List ContainerCandidate}
    (h : l.Pairwise (fun a b => b.score ≤ a.score)) :
    (insertByScore c l).Pairwise (fun a b => b.score ≤ a.score) := by
  induction l with
  | nil => simp [insertByScore]
  | cons d ds ih =>
    rw [List.pairwise_cons] at h
    obtain ⟨hd, hds⟩ := h
    by_cases hc : d.score ≤ c.score
    · simp only [insertByScore, if_pos hc]
      refine List.Pairwise.cons ?_ (List.Pairwise.cons hd hds)
      intro x hx
      rcases List.mem_cons.mp hx with hx | hx
      · exact hx ▸ hc
      · exact le_trans (hd x hx) hc
    · simp only [insertByScore, if_neg hc]
      refine List.Pairwise.cons ?_ (ih hds)
      intro x hx
      rcases List.mem_cons.mp ((insertByScore_perm c ds).mem_iff.mp hx) with hx | hx
      · exact hx ▸ le_of_lt (lt_of_not_le hc)
      · exact hd x hx

/-- The descending sort is a permutation of its input. -/
theorem sortByScoreDesc_perm (l : List ContainerCandidate) :
    List.Perm (sortByScoreDesc l) l := by
  induction l with
  | nil => exact List.Perm.refl _
  | cons c cs ih =>
    exact (insertByScore_perm c (sortByScoreDesc cs)).trans (List.Perm.cons c ih)

/-- The descending sort sorts. -/
theorem sortByScoreDesc_sorted (l : List ContainerCandidate) :
    (sortByScoreDesc l).Pairwise (fun a b => b.score ≤ a.score) := by
  induction l with
  | nil => simp [sortByScoreDesc]
  | cons c cs ih => exact insertByScore_sorted c ih

/-- Per-URL processing appends exactly one trace entry whose flag records
whether processing raised; `errors` grows by that flag; `pages_total` and
the domain set never change; `pages_crawled` grows by at most one. -/
theorem processUrl_spec {σ : Type} (ctx : CrawlCtx σ) (s : HandlerState σ)
    (url : String) :
    ∃ b, (processUrl ctx s url).trace = s.trace ++ [(url, b)] ∧
      (processUrl ctx s url).session.errors =
        s.session.errors + (if b then 1 else 0) ∧
      (processUrl ctx s url).session.pagesTotal = s.session.pagesTotal ∧
      (processUrl ctx s url).session.pagesCrawled ≤
        s.session.pagesCrawled + 1 ∧
      (processUrl ctx s url).session.domains = s.session.domains := by
  unfold processUrl
  rcases ctx.engine s.engineState url ctx.mode with ⟨res, es⟩
  cases res with
  | error e => exact ⟨true, by simp, by simp, rfl, by simp, rfl⟩
  | ok t =>
    obtain ⟨items, nextUrl, m⟩ := t
    by_cases hempty : items.isEmpty
    · simp only [hempty, if_true]
      refine ⟨false, ?_, ?_, ?_, ?_, ?_⟩ <;> (split <;> (try split) <;> simp)
    · rw [Bool.not_eq_true] at hempty
      simp only [hempty, Bool.false_eq_true, if_false]
      cases hcb : runCallbacks ctx.callbk items with
      | error e => exact ⟨true, by simp, by simp, rfl, by simp, rfl⟩
      | ok u =>
        dsimp only
        refine ⟨false, ?_, ?_, ?_, ?_, ?_⟩ <;> (split <;> (try split) <;> simp)

/-- Case split for queue `add` with depth bookkeeping: no-op for a falsy
or already-seen URL, a real enqueue otherwise. -/
theorem addWithDepth_spec (q : CrawlQueue) (d : List (String × Nat))
    (v : String) (dep : Nat) :
    (addWithDepth q d v dep = (q, d) ∧ (v = "" ∨ q.visited.contains v = true)) ∨
    (v ≠ "" ∧ q.visited.contains v = false ∧
      addWithDepth q d v dep =
        (⟨q.queue ++ [v], v :: q.visited⟩, (v, dep) :: d)) := by
  unfold addWithDepth
  by_cases h1 : v = ""
  · exact .inl ⟨by simp [h1], .inl h1⟩
  · by_cases h2 : v ∈ q.visited
    · exact .inl ⟨by simp [h1, h2], .inr (by simpa using h2)⟩
    · exact .inr ⟨h1, by simpa using h2, by simp [h1, h2]⟩

/-- Per-URL processing leaves the queue alone or enqueues one fresh truthy
URL (recording it in the queue's visited set). -/
theorem processUrl_queue_spec {σ : Type} (ctx : CrawlCtx σ)
    (s : HandlerState σ) (url : String) :
    (processUrl ctx s url).queue = s.queue ∨
    ∃ v, v ≠ "" ∧ s.queue.visited.contains v = false ∧
      (processUrl ctx s url).queue =
        ⟨s.queue.queue ++ [v], v :: s.queue.visited⟩ := by
  unfold processUrl
  rcases ctx.engine s.engineState url ctx.mode with ⟨res, es⟩
  cases res with
  | error e => exact .inl rfl
  | ok t =>
    obtain ⟨items, nextUrl, m⟩ := t
    by_cases hempty : items.isEmpty
    · simp only [hempty, if_true]
      rcases addWithDepth_spec s.queue s.depths (nextUrl.getD "")
          (depthOf s.depths url + 1) with ⟨heq, _⟩ | ⟨h1, h2, heq⟩ <;>
        rw [heq]
      · split_ifs <;> exact .inl rfl
      · split_ifs <;>
          first
          | exact .inr ⟨nextUrl.getD "", h1, h2, rfl⟩
          | exact .inl rfl
    · rw [Bool.not_eq_true] at hempty
      simp only [hempty, Bool.false_eq_true, if_false]
      cases hcb : runCallbacks ctx.callbk items with
      | error e => exact .inl rfl
      | ok u =>
        dsimp only
        rcases addWithDepth_spec s.queue s.depths (nextUrl.getD "")
            (depthOf s.depths url + 1) with ⟨heq, _⟩ | ⟨h1, h2, heq⟩ <;>
          rw [heq]
        · split_ifs <;> exact .inl rfl
        · split_ifs <;>
            first
            | exact .inr ⟨nextUrl.getD "", h1, h2, rfl⟩
            | exact .inl rfl

theorem crawlStep_spec {σ : Type} (ctx : CrawlCtx σ) {s s' : HandlerState σ}
    (h : crawlStep ctx s = some s') :
    ∃ url rest, s.queue.queue = url :: rest ∧
      s.session.pagesCrawled < s.session.pagesTotal ∧
      (s' = { s with queue := ⟨rest, s.queue.visited⟩ } ∨
       s' = processUrl ctx { s with queue := ⟨rest, s.queue.visited⟩ } url) := by
  unfold crawlStep at h
  split at h
  · exact Option.noConfusion h
  split at h
  · exact Option.noConfusion h
  next hpages =>
  split at h
  · exact Option.noConfusion h
  split at h
  · exact Option.noConfusion h
  next url rest hq =>
    refine ⟨url, rest, hq, by omega, ?_⟩
    dsimp only at h
    split_ifs at h <;>
      first
      | exact .inl (Option.some.inj h).symm
      | exact .inr (Option.some.inj h).symm

theorem fetchInv_skip {σ : Type} {s : HandlerState σ} {url : String}
    {rest : List String} (hq : s.queue.queue = url :: rest)
    (hinv : fetchInv s) :
    fetchInv { s with queue := ⟨rest, s.queue.visited⟩ } := by
  obtain ⟨h1, h2⟩ := hinv
  rw [hq] at h1 h2
  constructor
  · exact h1.sublist ((List.sublist_cons_self url rest).append_left _)
  · intro u hu
    exact h2 u (((List.sublist_cons_self url rest).append_left _).subset hu)

theorem fetchInv_process {σ : Type} (ctx : CrawlCtx σ) {s : HandlerState σ}
    {url : String} {rest : List String} (hq : s.queue.queue = url :: rest)
    (hinv : fetchInv s) :
    fetchInv (processUrl ctx { s with queue := ⟨rest, s.queue.visited⟩ } url) := by
  obtain ⟨h1, h2⟩ := hinv
  rw [hq] at h1 h2
  obtain ⟨b, htr, -, -, -, -⟩ :=
    processUrl_spec ctx { s with queue := ⟨rest, s.queue.visited⟩ } url
  rcases processUrl_queue_spec ctx { s with queue := ⟨rest, s.queue.visited⟩ }
      url with hqq | ⟨v, hv1, hv2, hqq⟩
  · constructor
    · rw [htr, hqq]
      simp only [List.map_append, List.map_cons, List.map_nil]
      rw [List.append_assoc]
      simpa using h1
    · intro u hu
      rw [htr, hqq] at hu
      rw [hqq]
      exact h2 u (by simpa using hu)
  · have hl : ((s.trace ++ [(url, b)]).map Prod.fst) ++ (rest ++ [v]) =
        (s.trace.map Prod.fst ++ url :: rest) ++ [v] := by
      simp
    constructor
    · rw [htr, hqq]
      show (((s.trace ++ [(url, b)]).map Prod.fst) ++ (rest ++ [v])).Nodup
      rw [hl, List.nodup_append]
      refine ⟨h1, List.nodup_singleton v, ?_⟩
      intro a ha hav
      simp only [List.mem_singleton] at hav
      subst hav
      exact absurd (h2 a ha) (by simpa using hv2)
    · intro u hu
      rw [htr, hqq] at hu
      rw [hqq]
      show u ∈ v :: s.queue.visited
      rw [show ((s.trace ++ [(url, b)]).map Prod.fst) ++ (rest ++ [v]) =
        (s.trace.map Prod.fst ++ url :: rest) ++ [v] from hl] at hu
      rcases List.mem_append.mp hu with h | h
      · exact List.mem_cons_of_mem v (h2 u h)
      · simp only [List.mem_singleton] at h
        subst h
        exact List.mem_cons_self u _

theorem crawlStep_fetchInv {σ : Type} (ctx : CrawlCtx σ)
    {s s' : HandlerState σ} (h : crawlStep ctx s = some s')
    (hinv : fetchInv s) : fetchInv s' := by
  obtain ⟨url, rest, hq, -, hcase⟩ := crawlStep_spec ctx h
  rcases hcase with rfl | rfl
  · exact fetchInv_skip hq hinv
  · exact fetchInv_process ctx hq hinv

theorem crawlLoop_fetchInv {σ : Type} (ctx : CrawlCtx σ) (fuel : Nat)
    {s : HandlerState σ} (hinv : fetchInv s) :
    fetchInv (crawlLoop ctx fuel s) := by
  induction fuel generalizing s with
  | zero => exact hinv
  | succ n ih =>
    cases hstep : crawlStep ctx s with
    | none => simpa [crawlLoop, hstep] using hinv
    | some s2 =>
      have := ih (crawlStep_fetchInv ctx hstep hinv)
      simpa [crawlLoop, hstep] using this

theorem initStep_fetchInv {σ : Type} (s : HandlerState σ) (url : String)
    (hinv : fetchInv s) : fetchInv (initStep s url) := by
  unfold initStep
  obtain ⟨h1, h2⟩ := hinv
  rcases addWithDepth_spec s.queue s.depths url 0 with ⟨heq, -⟩ |
      ⟨hv1, hv2, heq⟩ <;> rw [heq]
  · exact ⟨h1, h2⟩
  · constructor
    · show (s.trace.map Prod.fst ++ (s.queue.queue ++ [url])).Nodup
      rw [show s.trace.map Prod.fst ++ (s.queue.queue ++ [url]) =
        (s.trace.map Prod.fst ++ s.queue.queue) ++ [url] by simp,
        List.nodup_append]
      refine ⟨h1, List.nodup_singleton url, ?_⟩
      intro a ha hav
      simp only [List.mem_singleton] at hav
      subst hav
      exact absurd (h2 a ha) (by simpa using hv2)
    · intro u hu
      show u ∈ url :: s.queue.visited
      rw [show s.trace.map Prod.fst ++ (s.queue.queue ++ [url]) =
        (s.trace.map Prod.fst ++ s.queue.queue) ++ [url] by simp] at hu
      rcases List.mem_append.mp hu with h | h
      · exact List.mem_cons_of_mem url (h2 u h)
      · simp only [List.mem_singleton] at h
        subst h
        exact List.mem_cons_self u _

theorem foldl_initStep_fetchInv {σ : Type} (urls : List String)
    {s : HandlerState σ} (hinv : fetchInv s) :
    fetchInv (urls.foldl initStep s) := by
  induction urls generalizing s with
  | nil => exact hinv
  | cons u rest ih => exact ih (initStep_fetchInv s u hinv)

theorem crawlInit_fetchInv {σ : Type} (startUrls : List String)
    (pagesTotal : Nat) (es : σ) :
    fetchInv (crawlInit startUrls pagesTotal es) :=
  foldl_initStep_fetchInv startUrls (by constructor <;> simp [CrawlQueue.empty])

theorem processMultiUrl_spec {σ : Type} (ctx : CrawlCtx σ) (mpd : Nat)
    (s : HandlerState σ) (counts : List (String × Nat)) (url dom : String) :
    ∃ b, (processMultiUrl ctx mpd s counts url dom).1.trace =
      s.trace ++ [(url, b)] := by
  unfold processMultiUrl
  rcases ctx.engine s.engineState url ctx.mode with ⟨res, es⟩
  cases res with
  | error e => exact ⟨true, by simp⟩
  | ok t =>
    obtain ⟨items, nextUrl, m⟩ := t
    by_cases hempty : items.isEmpty
    · simp only [hempty, if_true]
      refine ⟨false, ?_⟩
      split <;> (try split) <;> (try split) <;> simp
    · rw [Bool.not_eq_true] at hempty
      simp only [hempty, Bool.false_eq_true, if_false]
      cases hcb : runCallbacks ctx.callbk items with
      | error e => exact ⟨true, by simp⟩
      | ok u =>
        dsimp only
        refine ⟨false, ?_⟩
        split <;> (try split) <;> (try split) <;> simp

theorem processMultiUrl_queue_spec {σ : Type} (ctx : CrawlCtx σ) (mpd : Nat)
    (s : HandlerState σ) (counts : List (String × Nat)) (url dom : String) :
    (processMultiUrl ctx mpd s counts url dom).1.queue = s.queue ∨
    ∃ v, v ≠ "" ∧ s.queue.visited.contains v = false ∧
      (processMultiUrl ctx mpd s counts url dom).1.queue =
        ⟨s.queue.queue ++ [v], v :: s.queue.visited⟩ := by
  unfold processMultiUrl
  rcases ctx.engine s.engineState url ctx.mode with ⟨res, es⟩
  cases res with
  | error e => exact .inl rfl
  | ok t =>
    obtain ⟨items, nextUrl, m⟩ := t
    by_cases hempty : items.isEmpty
    · simp only [hempty, if_true]
      rcases addWithDepth_spec s.queue s.depths (nextUrl.getD "")
          (depthOf s.depths url + 1) with ⟨heq, -⟩ | ⟨h1, h2, heq⟩ <;>
        rw [heq]
      · split_ifs <;> exact .inl rfl
      · split_ifs <;>
          first
          | exact .inr ⟨nextUrl.getD "", h1, h2, rfl⟩
          | exact .inl rfl
    · rw [Bool.not_eq_true] at hempty
      simp only [hempty, Bool.false_eq_true, if_false]
      cases hcb : runCallbacks ctx.callbk items with
      | error e => exact .inl rfl
      | ok u =>
        dsimp only
        rcases addWithDepth_spec s.queue s.depths (nextUrl.getD "")
            (depthOf s.depths url + 1) with ⟨heq, -⟩ | ⟨h1, h2, heq⟩ <;>
          rw [heq]
        · split_ifs <;> exact .inl rfl
        · split_ifs <;>
            first
            | exact .inr ⟨nextUrl.getD "", h1, h2, rfl⟩
            | exact .inl rfl

theorem crawlMultiStep_spec {σ : Type} (ctx : CrawlCtx σ) (mpd : Nat)
    {s : HandlerState σ} {counts counts' : List (String × Nat)}
    {s' : HandlerState σ}
    (h : crawlMultiStep ctx mpd s counts = some (s', counts')) :
    ∃ url rest, s.queue.queue = url :: rest ∧
      ((s' = { s with queue := ⟨rest, s.queue.visited⟩ } ∧ counts' = counts) ∨
       (s', counts') = processMultiUrl ctx mpd
         { s with queue := ⟨rest, s.queue.visited⟩ } counts url
         (getDomain url)) := by
  unfold crawlMultiStep at h
  split at h
  · exact Option.noConfusion h
  split at h
  · exact Option.noConfusion h
  next url rest hq =>
    refine ⟨url, rest, hq, ?_⟩
    dsimp only at h
    split_ifs at h <;>
      first
      | exact .inl ⟨(congrArg Prod.fst (Option.some.inj h)).symm,
          (congrArg Prod.snd (Option.some.inj h)).symm⟩
      | exact .inr (Option.some.inj h).symm

theorem crawlMultiStep_fetchInv {σ : Type} (ctx : CrawlCtx σ) (mpd : Nat)
    {s s' : HandlerState σ} {counts counts' : List (String × Nat)}
    (h : crawlMultiStep ctx mpd s counts = some (s', counts'))
    (hinv : fetchInv s) : fetchInv s' := by
  obtain ⟨url, rest, hq, hcase⟩ := crawlMultiStep_spec ctx mpd h
  rcases hcase with ⟨rfl, -⟩ | hpr
  · exact fetchInv_skip hq hinv
  · have h1 : s' = (processMultiUrl ctx mpd
        { s with queue := ⟨rest, s.queue.visited⟩ } counts url
        (getDomain url)).1 := by rw [← hpr]
    obtain ⟨hn, hm⟩ := hinv
    rw [hq] at hn hm
    obtain ⟨b, htr⟩ := processMultiUrl_spec ctx mpd
      { s with queue := ⟨rest, s.queue.visited⟩ } counts url (getDomain url)
    rcases processMultiUrl_queue_spec ctx mpd
        { s with queue := ⟨rest, s.queue.visited⟩ } counts url
        (getDomain url) with hqq | ⟨v, hv1, hv2, hqq⟩
    · rw [h1]
      constructor
      · rw [htr, hqq]
        simp only [List.map_append, List.map_cons, List.map_nil]
        rw [List.append_assoc]
        simpa using hn
      · intro u hu
        rw [htr, hqq] at hu
        rw [hqq]
        exact hm u (by simpa using hu)
    · rw [h1]
      have hl : ((s.trace ++ [(url, b)]).map Prod.fst) ++ (rest ++ [v]) =
          (s.trace.map Prod.fst ++ url :: rest) ++ [v] := by
        simp
      constructor
      · rw [htr, hqq]
        show (((s.trace ++ [(url, b)]).map Prod.fst) ++ (rest ++ [v])).Nodup
        rw [hl, List.nodup_append]
        refine ⟨hn, List.nodup_singleton v, ?_⟩
        intro a ha hav
        simp only [List.mem_singleton] at hav
        subst hav
        exact absurd (hm a ha) (by simpa using hv2)
      · intro u hu
        rw [htr, hqq] at hu
        rw [hqq]
        show u ∈ v :: s.queue.visited
        rw [show ((s.trace ++ [(url, b)]).map Prod.fst) ++ (rest ++ [v]) =
          (s.trace.map Prod.fst ++ url :: rest) ++ [v] from hl] at hu
        rcases List.mem_append.mp hu with hx | hx
        · exact List.mem_cons_of_mem v (hm u hx)
        · simp only [List.mem_singleton] at hx
          subst hx
          exact List.mem_cons_self u _

theorem crawlMultiLoop_fetchInv {σ : Type} (ctx : CrawlCtx σ) (mpd : Nat)
    (fuel : Nat) {sc : HandlerState σ × List (String × Nat)}
    (hinv : fetchInv sc.1) : fetchInv (crawlMultiLoop ctx mpd fuel sc).1 := by
  induction fuel generalizing sc with
  | zero => exact hinv
  | succ n ih =>
    obtain ⟨s, counts⟩ := sc
    cases hstep : crawlMultiStep ctx mpd s counts with
    | none => simpa [crawlMultiLoop, hstep] using hinv
    | some sc2 =>
      obtain ⟨s2, counts2⟩ := sc2
      have : fetchInv (crawlMultiLoop ctx mpd n (s2, counts2)).1 :=
        ih (crawlMultiStep_fetchInv ctx mpd hstep hinv)
      simpa [crawlMultiLoop, hstep] using this

theorem crawlMultiInit_fetchInv {σ : Type} (startUrls : List String)
    (mpd : Nat) (es : σ) : fetchInv (crawlMultiInit startUrls mpd es).1 := by
  unfold crawlMultiInit
  have base : ∀ (urls : List String)
      (sc : HandlerState σ × List (String × Nat)), fetchInv sc.1 →
      fetchInv (urls.foldl multiInitStep sc).1 := by
    intro urls
    induction urls with
    | nil => intro sc h; exact h
    | cons u rest ih =>
      intro sc h
      obtain ⟨s, counts⟩ := sc
      exact ih _ (initStep_fetchInv s u h)
  exact base startUrls _ (by constructor <;> simp [CrawlQueue.empty])

theorem errCount_append_one (t : List (String × Bool)) (u : String) (b : Bool) :
    errCount (t ++ [(u, b)]) = errCount t + (if b then 1 else 0) := by
  cases b <;> simp [errCount, List.filter_append]

theorem crawlStep_err {σ : Type} (ctx : CrawlCtx σ) {s s' : HandlerState σ}
    (h : crawlStep ctx s = some s') :
    s'.session.errors + errCount s.trace =
      s.session.errors + errCount s'.trace := by
  obtain ⟨url, rest, hq, -, hcase⟩ := crawlStep_spec ctx h
  rcases hcase with rfl | rfl
  · rfl
  · obtain ⟨b, htr, herr, -, -, -⟩ :=
      processUrl_spec ctx { s with queue := ⟨rest, s.queue.visited⟩ } url
    have herr2 : (processUrl ctx { s with queue := ⟨rest, s.queue.visited⟩ }
        url).session.errors = s.session.errors + (if b then 1 else 0) := herr
    have htr2 : (processUrl ctx { s with queue := ⟨rest, s.queue.visited⟩ }
        url).trace = s.trace ++ [(url, b)] := htr
    rw [herr2, htr2, errCount_append_one]
    omega

theorem crawlLoop_err {σ : Type} (ctx : CrawlCtx σ) (fuel : Nat) :
    ∀ {s : HandlerState σ},
      (crawlLoop ctx fuel s).session.errors + errCount s.trace =
        s.session.errors + errCount (crawlLoop ctx fuel s).trace := by
  induction fuel with
  | zero => intro s; rfl
  | succ n ih =>
    intro s
    cases hstep : crawlStep ctx s with
    | none => simp [crawlLoop, hstep]
    | some s2 =>
      have h1 := crawlStep_err ctx hstep
      have h2 := ih (s := s2)
      simp only [crawlLoop, hstep]
      omega

theorem initStep_fields {σ : Type} (s : HandlerState σ) (url : String) :
    (initStep s url).trace = s.trace ∧
    (initStep s url).session.errors = s.session.errors ∧
    (initStep s url).session.pagesCrawled = s.session.pagesCrawled ∧
    (initStep s url).session.pagesTotal = s.session.pagesTotal := by
  unfold initStep
  exact ⟨rfl, rfl, rfl, rfl⟩

theorem foldl_initStep_fields {σ : Type} (urls : List String) :
    ∀ s : HandlerState σ,
      (urls.foldl initStep s).trace = s.trace ∧
      (urls.foldl initStep s).session.errors = s.session.errors ∧
      (urls.foldl initStep s).session.pagesCrawled =
        s.session.pagesCrawled ∧
      (urls.foldl initStep s).session.pagesTotal = s.session.pagesTotal := by
  induction urls with
  | nil => intro s; exact ⟨rfl, rfl, rfl, rfl⟩
  | cons u rest ih =>
    intro s
    obtain ⟨h1, h2, h3, h4⟩ := ih (initStep s u)
    obtain ⟨g1, g2, g3, g4⟩ := initStep_fields s u
    exact ⟨h1.trans g1, h2.trans g2, h3.trans g3, h4.trans g4⟩

theorem crawlStep_pages {σ : Type} (ctx : CrawlCtx σ) {s s' : HandlerState σ}
    (h : crawlStep ctx s = some s') :
    s'.session.pagesCrawled ≤ s'.session.pagesTotal := by
  obtain ⟨url, rest, hq, hlt, hcase⟩ := crawlStep_spec ctx h
  rcases hcase with rfl | rfl
  · exact le_of_lt hlt
  · obtain ⟨b, -, -, htot, hpc, -⟩ :=
      processUrl_spec ctx { s with queue := ⟨rest, s.queue.visited⟩ } url
    have htot2 : (processUrl ctx { s with queue := ⟨rest, s.queue.visited⟩ }
        url).session.pagesTotal = s.session.pagesTotal := htot
    have hpc2 : (processUrl ctx { s with queue := ⟨rest, s.queue.visited⟩ }
        url).session.pagesCrawled ≤ s.session.pagesCrawled + 1 := hpc
    omega

theorem crawlLoop_pages {σ : Type} (ctx : CrawlCtx σ) (fuel : Nat)
    {s : HandlerState σ}
    (hs : s.session.pagesCrawled ≤ s.session.pagesTotal) :
    (crawlLoop ctx fuel s).session.pagesCrawled ≤
      (crawlLoop ctx fuel s).session.pagesTotal := by
  induction fuel generalizing s with
  | zero => exact hs
  | succ n ih =>
    cases hstep : crawlStep ctx s with
    | none => simpa [crawlLoop, hstep] using hs
    | some s2 =>
      have := ih (s := s2) (crawlStep_pages ctx hstep)
      simpa [crawlLoop, hstep] using this

/-- The permissive default parser is exactly a default `*` entry whose one
rule line allows `/`. -/
theorem defaultAllowParser_eq :
    defaultAllowParser =
      { lastChecked := true, disallowAll := false, allowAll := false,
        entries := [], defaultEntry := some ⟨["*"], [("/", true)]⟩ } := by
  decide

/-- The permissive default parser allows every URL for every agent. -/
theorem defaultAllowParser_canFetch (ua url : String) :
    defaultAllowParser.canFetch ua url = true := by
  rw [defaultAllowParser_eq]
  simp only [RobotFileParser.canFetch, entryAllowance]
  cases hra : ruleApplies (if urlPath url = "" then "/" else urlPath url)
      ("/", true) <;>
    simp [List.find?, hra]

/-- A parser that never saw a robots body refuses every URL. -/
theorem emptyParser_canFetch (ua url : String) :
    emptyParser.canFetch ua url = false := by
  simp [RobotFileParser.canFetch, emptyParser]

/-- C2 counterexample: with following enabled and an empty cache, a 404
robots.txt response makes `allowed` return false — not the permissive
default the claim states. -/
theorem robots_non200_blocks_counterexample :
    (RobotsChecker.allowed ⟨true, []⟩ (fun _ => .ok 404 [])
      "http://shop.example/a" "*").1 = false := by
  decide

/-- C2 (amended): on a raised robots fetch error the gate caches the
permissive default and `allowed` is true for that origin (also on later
calls, regardless of the later fetch outcome); on a non-200 response the
gate caches an unparsed parser and `allowed` is false for every URL of
that origin. -/
theorem robots_failure_defaults (rc : RobotsChecker)
    (fetch : String → RobotsFetch) (url ua : String)
    (hf : rc.follow = true)
    (hc : rc.cache.lookup (robotsUrl url) = none) :
    (fetch (robotsUrl url) = .failed →
      (rc.allowed fetch url ua).1 = true ∧
      ((rc.allowed fetch url ua).2).cache.lookup (robotsUrl url) =
        some defaultAllowParser ∧
      ∀ (fetch2 : String → RobotsFetch) (url2 ua2 : String),
        robotsUrl url2 = robotsUrl url →
        (((rc.allowed fetch url ua).2).allowed fetch2 url2 ua2).1 = true) ∧
    (∀ status text, status ≠ 200 → fetch (robotsUrl url) = .ok status text →
      (rc.allowed fetch url ua).1 = false) := by
  constructor
  · intro hfetch
    have h1 : rc.allowed fetch url ua =
        (defaultAllowParser.canFetch ua url,
          { rc with cache := (robotsUrl url, defaultAllowParser) :: rc.cache }) := by
      simp [RobotsChecker.allowed, loadParser, hf, hc, hfetch]
    refine ⟨by rw [h1]; exact defaultAllowParser_canFetch ua url, ?_, ?_⟩
    · rw [h1]
      simp [List.lookup]
    · intro fetch2 url2 ua2 hurl2
      rw [h1]
      simp [RobotsChecker.allowed, loadParser, hf, hurl2, List.lookup,
        defaultAllowParser_canFetch]
  · intro status text hs hfetch
    have h1 : rc.allowed fetch url ua =
        (emptyParser.canFetch ua url,
          { rc with cache := (robotsUrl url, emptyParser) :: rc.cache }) := by
      simp [RobotsChecker.allowed, loadParser, hf, hc, hfetch, hs]
    rw [h1]
    exact emptyParser_canFetch ua url

/-- Witness for C2 at a concrete origin: a raised fetch gives a permissive
verdict (cached), a 404 gives a blocking verdict. -/
theorem robots_failure_defaults_witness :
    (RobotsChecker.allowed ⟨true, []⟩ (fun _ => .failed)
      "http://shop.example/x" "*").1 = true ∧
    (RobotsChecker.allowed ⟨true, []⟩ (fun _ => .ok 404 [])
      "http://shop.example/x" "*").1 = false := by
  have h1 := robots_failure_defaults ⟨true, []⟩ (fun _ => .failed)
    "http://shop.example/x" "*" rfl (by decide)
  have h2 := robots_failure_defaults ⟨true, []⟩ (fun _ => .ok 404 [])
    "http://shop.example/x" "*" rfl (by decide)
  exact ⟨(h1.1 rfl).1, h2.2 404 [] (by decide) rfl⟩

/-- C7: a signature bucket with at least `min_repeats = 3` elements that
survives the inline-tag and leaf filters yields a candidate scored
`10·min(count, 20)` plus 100 for a title, 50 for a link, 30 for a price,
20 for an image, 10 for a description; the candidate list is sorted by
score descending (and is a permutation of the surviving buckets'
candidates); extraction uses the top candidate's selector. -/
theorem container_scoring_and_selection
    (clusters : List (String × List DomElem))
    (selectExtract : String → List Item) :
    (∀ sig elems sample rest, elems = sample :: rest →
      minRepeats ≤ elems.length →
      inlineTags.contains sample.name = false →
      sample.isLeaf = false →
      bucketCandidate (sig, elems) = some
        { selector := generateSelector sample
          count := elems.length
          sample := sample.sample
          score := 10 * min elems.length 20
            + (if optTruthy sample.sample.title then 100 else 0)
            + (if optTruthy sample.sample.link then 50 else 0)
            + (if optTruthy sample.sample.price then 30 else 0)
            + (if optTruthy sample.sample.image then 20 else 0)
            + (if optTruthy sample.sample.description then 10 else 0)
          signature := sig }) ∧
    (detectDataContainers clusters).Pairwise (fun a b => b.score ≤ a.score) ∧
    List.Perm (detectDataContainers clusters) (clusters.filterMap bucketCandidate) ∧
    (∀ best rest, detectDataContainers clusters = best :: rest →
      extractWithPatterns selectExtract (detectDataContainers clusters) =
        selectExtract best.selector) := by
  refine ⟨?_, sortByScoreDesc_sorted _, sortByScoreDesc_perm _, ?_⟩
  · intro sig elems sample rest helems hlen hinline hleaf
    subst helems
    simp only [bucketCandidate, scoreContainer, Nat.not_lt.mpr hlen, if_false,
      hinline, hleaf, Bool.false_eq_true, if_neg, ite_false]
  · intro best rest h
    rw [h]
    rfl

/-- Witness for C7: the demo bucket of three title-and-link cards scores
10·3 + 100 + 50 = 180 and survives as the (sorted) top candidate. -/
theorem container_scoring_and_selection_witness :
    bucketCandidate ("div.card|h3:1-a:1", [demoElem, demoElem, demoElem]) =
      some demoCand ∧
    (detectDataContainers demoClusters).Pairwise
      (fun a b => b.score ≤ a.score) ∧
    demoCand.score = 180 := by
  have h := container_scoring_and_selection demoClusters (fun _ => [])
  have hb := h.1 "div.card|h3:1-a:1" [demoElem, demoElem, demoElem] demoElem
    [demoElem, demoElem] rfl (by decide) (by decide) (by decide)
  refine ⟨?_, h.2.1, by decide⟩
  rw [hb]
  decide

/-- C6: the price normalizer maps `"$1,234.56"` to `1234.56`, `"€1.234,56"`
to `1234.56`, `"12,99"` to `12.99`, `"1,234"` to `1234.0`, and `"abc"` to
null. -/
theorem normalize_price_examples :
    normalizePrice "$1,234.56" = some (1234.56 : Rat) ∧
    normalizePrice "€1.234,56" = some (1234.56 : Rat) ∧
    normalizePrice "12,99" = some (12.99 : Rat) ∧
    normalizePrice "1,234" = some (1234.0 : Rat) ∧
    normalizePrice "abc" = none := by
  have h1 : normalizePriceParts "$1,234.56" = some (123456, 2) := by decide
  have h2 : normalizePriceParts "€1.234,56" = some (123456, 2) := by decide
  have h3 : normalizePriceParts "12,99" = some (1299, 2) := by decide
  have h4 : normalizePriceParts "1,234" = some (1234, 0) := by decide
  have h5 : normalizePriceParts "abc" = none := by decide
  refine ⟨?_, ?_, ?_, ?_, ?_⟩
  · simp only [normalizePrice, h1, Option.map_some', partsToRat]; norm_num
  · simp only [normalizePrice, h2, Option.map_some', partsToRat]; norm_num
  · simp only [normalizePrice, h3, Option.map_some', partsToRat]; norm_num
  · simp only [normalizePrice, h4, Option.map_some', partsToRat]; norm_num
  · simp only [normalizePrice, h5, Option.map_none']

/-- C8: next-page derivation from a cached pagination hint: a `button` hint
yields its `next_url`; a `links` hint whose pattern contains `{page}` yields
the pattern with `current + 1` substituted; a `load_more` hint yields no
next URL. -/
theorem next_page_from_pagination_hint (nextUrl : Option String)
    (sel selLM pattern : String) (current : Nat) (pages : List Nat)
    (hpage : strContains pattern "{page}" = true) :
    detectNextPage (some (.button nextUrl sel)) = nextUrl ∧
    detectNextPage (some (.links pattern current pages)) =
      some (strReplace pattern "{page}" (toString (current + 1))) ∧
    detectNextPage (some (.loadMore selLM)) = none := by
  have hne : pattern ≠ "" := by
    intro h
    rw [h] at hpage
    simp [strContains, containsRun] at hpage
  refine ⟨rfl, ?_, rfl⟩
  simp [detectNextPage, hne, hpage]

/-- Witness for C8 at a concrete pagination hint of each kind. -/
theorem next_page_from_pagination_hint_witness :
    strContains "/cat?p={page}" "{page}" = true ∧
    detectNextPage (some (.button (some "/p/2") "a.next")) = some "/p/2" ∧
    detectNextPage (some (.links "/cat?p={page}" 1 [1, 2, 3])) =
      some "/cat?p=2" ∧
    detectNextPage (some (.loadMore "a.more")) = none := by
  have h := next_page_from_pagination_hint (some "/p/2") "a.next" "a.more"
    "/cat?p={page}" 1 [1, 2, 3] (by decide)
  refine ⟨by decide, h.1, ?_, h.2.2⟩
  rw [h.2.1]
  decide


/-- C5: deserializing the serialization of a queue state (pending URLs
plus visited set) yields the state back, with the FIFO order of pending
URLs and the visited set both preserved. -/
theorem queue_serialize_roundtrip (q : CrawlQueue) :
    CrawlQueue.fromDict (CrawlQueue.toDict q) = q ∧
    (CrawlQueue.fromDict (CrawlQueue.toDict q)).queue = q.queue ∧
    (CrawlQueue.fromDict (CrawlQueue.toDict q)).visited = q.visited :=
  ⟨rfl, rfl, rfl⟩

/-- C9: no URL is fetched twice in a session, single- or multi-domain:
the trace of URLs handed to the engine's `fetch_and_extract` has no
duplicates, for every engine, robots verdict, callback, seed list, limits
and fuel — because the queue's `add` is idempotent against its visited set
and the handler skips URLs already visited. -/
theorem no_url_fetched_twice {σ : Type} (ctx : CrawlCtx σ)
    (startUrls : List String) (pagesTotal mpd : Nat) (es : σ)
    (fuel fuelM : Nat) :
    ((crawl ctx startUrls pagesTotal es fuel).trace.map Prod.fst).Nodup ∧
    ((crawlMultiDomain ctx startUrls mpd es fuelM).1.trace.map
      Prod.fst).Nodup := by
  constructor
  · have hinv := crawlLoop_fetchInv ctx fuel
      (crawlInit_fetchInv startUrls pagesTotal es)
    exact hinv.1.sublist (List.sublist_append_left _ _)
  · have hinv := crawlMultiLoop_fetchInv ctx mpd fuelM
      (crawlMultiInit_fetchInv startUrls mpd es)
    exact hinv.1.sublist (List.sublist_append_left _ _)

/-- C1: an exception raised while processing a dequeued URL is caught at
the per-URL boundary — the errors counter is incremented, the URL is
consumed, and the loop continues with the next iteration; and over a whole
`crawl` run the errors counter equals exactly the number of attempted URLs
whose processing raised, so no per-URL exception reaches the caller
(`get_depth` is spec-modelled; setup-time errors precede the loop). -/
theorem per_url_exception_caught {σ : Type} (ctx : CrawlCtx σ) :
    (∀ (s : HandlerState σ) (url : String) (rest : List String) (es2 : σ)
        (fuel : Nat),
      s.queue.queue = url :: rest →
      s.session.pagesCrawled < s.session.pagesTotal →
      s.session.domains.length ≤ ctx.maxDomains →
      s.visited.contains url = false →
      depthOf s.depths url ≤ ctx.maxDepth →
      ctx.robots url = true →
      ctx.engine s.engineState url ctx.mode = (.error (), es2) →
      crawlLoop ctx (fuel + 1) s = crawlLoop ctx fuel
        { queue := ⟨rest, s.queue.visited⟩, depths := s.depths,
          visited := s.visited,
          session := { s.session with errors := s.session.errors + 1 },
          engineState := es2,
          trace := s.trace ++ [(url, true)] }) ∧
    (∀ (startUrls : List String) (pagesTotal : Nat) (es : σ) (fuel : Nat),
      (crawl ctx startUrls pagesTotal es fuel).session.errors =
        errCount (crawl ctx startUrls pagesTotal es fuel).trace) := by
  constructor
  · intro s url rest es2 fuel hq hlt hdom hvis hdepth hrob heng
    have hstep : crawlStep ctx s = some
        { queue := ⟨rest, s.queue.visited⟩, depths := s.depths,
          visited := s.visited,
          session := { s.session with errors := s.session.errors + 1 },
          engineState := es2,
          trace := s.trace ++ [(url, true)] } := by
      unfold crawlStep
      rw [hq]
      simp only [CrawlQueue.hasNext, hq, List.length_cons, Nat.zero_lt_succ,
        Nat.not_le.mpr hlt, Nat.not_lt.mpr hdom, if_false, hvis,
        Nat.not_lt.mpr hdepth, hrob, Bool.false_eq_true, not_true,
        Bool.not_eq_true]
      simp only [processUrl, heng]
      simp
    simp only [crawlLoop, hstep]
  · intro startUrls pagesTotal es fuel
    have hf := foldl_initStep_fields (σ := σ) startUrls
      { queue := CrawlQueue.empty, depths := [], visited := [],
        session := { pagesCrawled := 0, pagesTotal := pagesTotal,
                     itemsExtracted := 0, errors := 0, domains := [] },
        engineState := es, trace := [] }
    have h := crawlLoop_err ctx fuel (s := crawlInit startUrls pagesTotal es)
    have ht : (crawlInit startUrls pagesTotal es).trace = [] := hf.1
    have he : (crawlInit startUrls pagesTotal es).session.errors = 0 :=
      hf.2.1
    rw [ht, he] at h
    simpa [crawl, errCount] using h

/-- C3 counterexample: with a raising engine, `crawl` reaches
errors = 1 > pages_crawled = 0; and `crawl_multi_domain` with one seed and
`max_pages_per_domain = 1` crawls 2 pages against `pages_total = 1` when
the next URL lands on a second domain. -/
theorem session_counter_counterexample :
    (crawl raiseCtx ["http://a/"] 5 () 3).session.errors = 1 ∧
    (crawl raiseCtx ["http://a/"] 5 () 3).session.pagesCrawled = 0 ∧
    (crawlMultiDomain hopCtx ["http://a/"] 1 () 5).1.session.pagesCrawled
      = 2 ∧
    (crawlMultiDomain hopCtx ["http://a/"] 1 () 5).1.session.pagesTotal
      = 1 := by
  decide

/-- C3 (amended): throughout every run of `crawl` — at every loop
iteration boundary, i.e. for every fuel — `pages_crawled ≤ pages_total`;
`errors` counts failed attempts, which do not increment `pages_crawled`,
so `errors ≤ pages_crawled` does not hold, and `crawl_multi_domain` does
not enforce `pages_total`. -/
theorem pages_crawled_le_pages_total {σ : Type} (ctx : CrawlCtx σ)
    (startUrls : List String) (pagesTotal : Nat) (es : σ) (fuel : Nat) :
    (crawl ctx startUrls pagesTotal es fuel).session.pagesCrawled ≤
      (crawl ctx startUrls pagesTotal es fuel).session.pagesTotal := by
  have hf := foldl_initStep_fields (σ := σ) startUrls
    { queue := CrawlQueue.empty, depths := [], visited := [],
      session := { pagesCrawled := 0, pagesTotal := pagesTotal,
                   itemsExtracted := 0, errors := 0, domains := [] },
      engineState := es, trace := [] }
  refine crawlLoop_pages ctx fuel ?_
  rw [show (crawlInit startUrls pagesTotal es).session.pagesCrawled = 0
    from hf.2.2.1]
  exact Nat.zero_le _

/-- Witness for C1: a concrete raising engine on one seed URL — the first
iteration catches, counts and continues; the whole run's errors match its
trace. -/
theorem per_url_exception_caught_witness :
    crawlLoop raiseCtx 1 (crawlInit ["http://a/"] 5 ()) =
      crawlLoop raiseCtx 0
        { queue := ⟨[], ["http://a/"]⟩, depths := [("http://a/", 0)],
          visited := [],
          session := { pagesCrawled := 0, pagesTotal := 5,
                       itemsExtracted := 0, errors := 1, domains := ["a"] },
          engineState := (),
          trace := [("http://a/", true)] } ∧
    (crawl raiseCtx ["http://a/"] 5 () 3).session.errors =
      errCount (crawl raiseCtx ["http://a/"] 5 () 3).trace := by
  have h := per_url_exception_caught raiseCtx
  refine ⟨?_, h.2 ["http://a/"] 5 () 3⟩
  exact h.1 (crawlInit ["http://a/"] 5 ()) "http://a/" [] () 0
    (by decide) (by decide) (by decide) (by decide) (by decide) (by decide)
    rfl

/-- C4 counterexample: a crawl over one URL whose fetch yields a final
null ends with errors = 0 — the null is not counted as an error — while
the URL is consumed and the queue advances. -/
theorem engine_null_no_error_counterexample :
    (crawl nullFetchCtx ["http://a/"] 5 EngineState.fresh 3).session.errors
      = 0 ∧
    (crawl nullFetchCtx ["http://a/"] 5
      EngineState.fresh 3).session.pagesCrawled = 1 ∧
    (crawl nullFetchCtx ["http://a/"] 5 EngineState.fresh 3).visited =
      ["http://a/"] ∧
    (crawl nullFetchCtx ["http://a/"] 5 EngineState.fresh 3).queue.queue
      = [] := by
  decide

/-- C4 (amended): a final null from the fetch makes `fetch_and_extract`
return `([], None, mode)` without raising; the handler then marks the URL
visited, increments `pages_crawled` — not `errors` — and the loop
advances; more generally any returned triple (zero-item extractions
included) leaves `errors` unchanged when the callbacks succeed. -/
theorem engine_null_consumed_without_error {σ : Type} (ctx : CrawlCtx σ) :
    (∀ (es : EngineState) (hf : String → Option String)
        (bf : Option (String → Option String))
        (extract : String → String → List Item)
        (dn : String → String → Option String) (url : String)
        (mode : CrawlMode) (html : Option String) (m : CrawlMode)
        (es1 : EngineState),
      engineFetch es hf bf url mode = (html, m, es1) →
      optTruthy html = false →
      fetchAndExtract es hf bf extract dn url mode = (([], none, m), es1)) ∧
    (∀ (s : HandlerState σ) (url : String) (m : CrawlMode) (es2 : σ),
      ctx.engine s.engineState url ctx.mode = (.ok ([], none, m), es2) →
      processUrl ctx s url =
        { s with engineState := es2,
                 visited := if s.visited.contains url then s.visited
                            else url :: s.visited,
                 session := { s.session with
                   pagesCrawled := s.session.pagesCrawled + 1 },
                 trace := s.trace ++ [(url, false)] }) ∧
    (∀ (s : HandlerState σ) (url : String) (items : List Item)
        (nextUrl : Option String) (m : CrawlMode) (es2 : σ),
      ctx.engine s.engineState url ctx.mode = (.ok (items, nextUrl, m), es2) →
      runCallbacks ctx.callbk items = .ok () →
      (processUrl ctx s url).session.errors = s.session.errors) := by
  refine ⟨?_, ?_, ?_⟩
  · intro es hf bf extract dn url mode html m es1 hfe hnull
    unfold fetchAndExtract
    rw [hfe]
    simp [hnull]
  · intro s url m es2 heng
    unfold processUrl
    rw [heng]
    simp [optTruthy]
  · intro s url items nextUrl m es2 heng hcb
    unfold processUrl
    rw [heng]
    by_cases hempty : items.isEmpty
    · simp only [hempty, if_true]
      split <;> (try split) <;> simp
    · rw [Bool.not_eq_true] at hempty
      simp only [hempty, Bool.false_eq_true, if_false, hcb]
      split <;> (try split) <;> simp

/-- Witness for C4 at a concrete failing fetcher and seed state. -/
theorem engine_null_consumed_without_error_witness :
    fetchAndExtract EngineState.fresh (fun _ => none) none (fun _ _ => [])
      (fun _ _ => none) "http://a/" .auto =
      (([], none, .html), ⟨[], ⟨0, 1, 0, 0, 0⟩⟩) ∧
    (processUrl nullFetchCtx (crawlInit ["http://a/"] 5 EngineState.fresh)
      "http://a/").session.errors = 0 := by
  have h := engine_null_consumed_without_error (σ := EngineState) nullFetchCtx
  constructor
  · exact h.1 EngineState.fresh (fun _ => none) none (fun _ _ => [])
      (fun _ _ => none) "http://a/" .auto none .html ⟨[], ⟨0, 1, 0, 0, 0⟩⟩
      (by decide) rfl
  · rw [h.2.2 (crawlInit ["http://a/"] 5 EngineState.fresh) "http://a/"
      [] none .html ⟨[], ⟨0, 1, 0, 0, 0⟩⟩ rfl rfl]
    decide

/-- C10: an explicit HTML mode request (not AUTO) whose HTML fetch is
falsy still escalates to the browser when one exists; a truthy browser
body is returned with mode BROWSER, records BROWSER as the host's
preferred mode in ModeMemory, and increments `auto_switches` (besides the
`html_failed` / `browser_success` bookkeeping). -/
theorem html_mode_browser_fallback (es : EngineState)
    (htmlFetch : String → Option String) (bf : String → Option String)
    (url body : String)
    (hhtml : optTruthy (htmlFetch url) = false)
    (hbrowser : bf url = some body) (hbody : body ≠ "") :
    engineFetch es htmlFetch (some bf) url .html =
      (some body, .browser,
        { domainModes := (getDomain url, .browser) :: es.domainModes,
          stats :=
            { htmlSuccess := es.stats.htmlSuccess,
              htmlFailed := es.stats.htmlFailed + 1,
              browserSuccess := es.stats.browserSuccess + 1,
              browserFailed := es.stats.browserFailed,
              autoSwitches := es.stats.autoSwitches + 1 } }) ∧
    (engineFetch es htmlFetch (some bf) url .html).2.2.domainModes.lookup
        (getDomain url) = some .browser := by
  have h1 : engineFetch es htmlFetch (some bf) url .html =
      (some body, .browser,
        { domainModes := (getDomain url, .browser) :: es.domainModes,
          stats :=
            { htmlSuccess := es.stats.htmlSuccess,
              htmlFailed := es.stats.htmlFailed + 1,
              browserSuccess := es.stats.browserSuccess + 1,
              browserFailed := es.stats.browserFailed,
              autoSwitches := es.stats.autoSwitches + 1 } }) := by
    have hopt : optTruthy (some body) = true := by simp [optTruthy, hbody]
    unfold engineFetch fetchWithMode
    simp [hhtml, hbrowser, hopt]
  refine ⟨h1, ?_⟩
  rw [h1]
  simp [List.lookup]

/-- Witness for C10 at a concrete host with a failing HTML fetcher and a
succeeding browser fetcher. -/
theorem html_mode_browser_fallback_witness :
    engineFetch EngineState.fresh (fun _ => none) (some fun _ => some "<x>")
      "http://h/" .html =
      (some "<x>", .browser, ⟨[("h", .browser)], ⟨0, 1, 1, 0, 1⟩⟩) ∧
    (engineFetch EngineState.fresh (fun _ => none)
      (some fun _ => some "<x>") "http://h/" .html).2.2.stats.autoSwitches
      = 1 := by
  have h := html_mode_browser_fallback EngineState.fresh (fun _ => none)
    (fun _ => some "<x>") "http://h/" "<x>" rfl rfl (by decide)
  constructor
  · rw [h.1]
    decide
  · rw [h.1]
    decide

end CrawData
